import Mathlib

/-!
Verification of the news-aggregation backend scripts of this repository.

The repository consists of several near-duplicate JavaScript server variants.
JavaScript strings are modelled as lists of characters (`Str`), JavaScript
numbers appearing in the deduplication and ranking arithmetic as rationals,
and the Firestore document store as a list of documents.  Each definition
below is a direct translation of the corresponding JavaScript function; the
source file and line range is named in its doc comment.
-/

/-- JavaScript strings are modelled as lists of characters. -/
abbrev Str := List Char

/- ================= JavaScript Set semantics ================= -/

/-- Elements of a JavaScript array in first-occurrence order, skipping the
elements already in `seen`.  Auxiliary for `jsSetList`. -/
def jsSetAux {α : Type} [DecidableEq α] (seen : List α) : List α → List α
  | [] => []
  | a :: rest => if a ∈ seen then jsSetAux seen rest else a :: jsSetAux (a :: seen) rest

/-- Model of `new Set(l)` for a JavaScript array `l`: the distinct elements in
first-occurrence order (JavaScript Sets preserve insertion order). -/
def jsSetList {α : Type} [DecidableEq α] (l : List α) : List α := jsSetAux [] l

theorem mem_jsSetAux {α : Type} [DecidableEq α] {a : α} :
    ∀ {l seen : List α}, a ∈ jsSetAux seen l ↔ a ∈ l ∧ a ∉ seen := by
  intro l
  induction l with
  | nil => intro seen; simp [jsSetAux]
  | cons b rest ih =>
    intro seen
    by_cases hb : b ∈ seen
    · simp only [jsSetAux, if_pos hb, ih, List.mem_cons]
      constructor
      · rintro ⟨h1, h2⟩; exact ⟨Or.inr h1, h2⟩
      · rintro ⟨h1 | h1, h2⟩
        · exact absurd (h1 ▸ hb) h2
        · exact ⟨h1, h2⟩
    · simp only [jsSetAux, if_neg hb, List.mem_cons, ih]
      by_cases hab : a = b
      · subst hab; simp [hb]
      · simp [hab]

theorem nodup_jsSetAux {α : Type} [DecidableEq α] :
    ∀ (l seen : List α), (jsSetAux seen l).Nodup := by
  intro l
  induction l with
  | nil => intro seen; simp [jsSetAux]
  | cons b rest ih =>
    intro seen
    by_cases hb : b ∈ seen
    · simpa [jsSetAux, hb] using ih seen
    · simp only [jsSetAux, if_neg hb, List.nodup_cons]
      refine ⟨fun hmem => ?_, ih _⟩
      exact (mem_jsSetAux.mp hmem).2 (List.mem_cons_self _ _)

theorem mem_jsSetList {α : Type} [DecidableEq α] {a : α} {l : List α} :
    a ∈ jsSetList l ↔ a ∈ l := by
  simp [jsSetList, mem_jsSetAux]

theorem nodup_jsSetList {α : Type} [DecidableEq α] (l : List α) :
    (jsSetList l).Nodup := nodup_jsSetAux l []

theorem length_jsSetList_eq_card {α : Type} [DecidableEq α] (l : List α) :
    (jsSetList l).length = l.toFinset.card := by
  have h1 : (jsSetList l).toFinset = l.toFinset := by
    ext a; simp [mem_jsSetList]
  have h2 := List.toFinset_card_of_nodup (nodup_jsSetList l)
  rw [h1] at h2
  omega

/- ================= similarity (C1) ================= -/

/-- Translation of `similarity` from src/index.js lines 910-916 (identical in
src/unnamed/part_004 lines 116-122): set-based similarity of two token lists,

  const setA = new Set(a); const setB = new Set(b);
  const intersection = [...setA].filter((w) => setB.has(w));
  const union = new Set([...setA, ...setB]);
  return intersection.length / union.size;

with JavaScript numbers modelled as rationals (division by zero, which gives
NaN in JavaScript when both token lists are empty, gives 0 here). -/
def similarity (a b : List Str) : ℚ :=
  let setA := jsSetList a
  let setB := jsSetList b
  let inter := setA.filter (fun w => w ∈ setB)
  let uni := jsSetList (setA ++ setB)
  (inter.length : ℚ) / (uni.length : ℚ)

/-- C1: for all token lists a and b, similarity(a, b) equals the Jaccard index
of the corresponding sets: the number of distinct tokens occurring in both a
and b, divided by the number of distinct tokens occurring in a or b. -/
theorem similarity_eq_jaccard (a b : List Str) :
    similarity a b =
      ((a.toFinset ∩ b.toFinset).card : ℚ) / ((a.toFinset ∪ b.toFinset).card : ℚ) := by
  have hinter : ((jsSetList a).filter (fun w => w ∈ jsSetList b)).length =
      (a.toFinset ∩ b.toFinset).card := by
    have hnd : ((jsSetList a).filter (fun w => w ∈ jsSetList b)).Nodup :=
      (nodup_jsSetList a).filter _
    have hts : ((jsSetList a).filter (fun w => w ∈ jsSetList b)).toFinset =
        a.toFinset ∩ b.toFinset := by
      ext w
      simp [List.mem_filter, mem_jsSetList, Finset.mem_inter]
    have := List.toFinset_card_of_nodup hnd
    rw [hts] at this
    omega
  have huni : (jsSetList (jsSetList a ++ jsSetList b)).length =
      (a.toFinset ∪ b.toFinset).card := by
    have hnd := nodup_jsSetList (jsSetList a ++ jsSetList b)
    have hts : (jsSetList (jsSetList a ++ jsSetList b)).toFinset =
        a.toFinset ∪ b.toFinset := by
      ext w
      simp [mem_jsSetList, List.mem_append, Finset.mem_union]
    have := List.toFinset_card_of_nodup hnd
    rw [hts] at this
    omega
  simp only [similarity]
  rw [hinter, huni]

/- ================= JavaScript character classes ================= -/

/-- The character class \w of JavaScript regular expressions:
ASCII letters, digits and underscore. -/
def isWordCharJS (c : Char) : Bool :=
  ('a' ≤ c && c ≤ 'z') || ('A' ≤ c && c ≤ 'Z') || ('0' ≤ c && c ≤ '9') || c = '_'

/-- The characters matched by the class \s of JavaScript regular expressions
(and trimmed by String.prototype.trim). -/
def jsWhitespaceList : List Char :=
  [' ', '\t', '\n', '\r', Char.ofNat 11, Char.ofNat 12, Char.ofNat 160,
   Char.ofNat 0x1680, Char.ofNat 0x2000, Char.ofNat 0x2001, Char.ofNat 0x2002,
   Char.ofNat 0x2003, Char.ofNat 0x2004, Char.ofNat 0x2005, Char.ofNat 0x2006,
   Char.ofNat 0x2007, Char.ofNat 0x2008, Char.ofNat 0x2009, Char.ofNat 0x200A,
   Char.ofNat 0x2028, Char.ofNat 0x2029, Char.ofNat 0x202F, Char.ofNat 0x205F,
   Char.ofNat 0x3000, Char.ofNat 0xFEFF]

/-- Membership in the JavaScript whitespace class. -/
def isSpaceCharJS (c : Char) : Bool := jsWhitespaceList.contains c

/-- Model of String.prototype.toLowerCase, character by character. -/
def jsToLower (s : Str) : Str := s.map Char.toLower

/-- Model of String.prototype.split(" "): split at every single space,
keeping empty pieces (JavaScript semantics for a one-character separator). -/
def jsSplitSpace : Str → List Str
  | [] => [[]]
  | c :: rest =>
    if c = ' ' then [] :: jsSplitSpace rest
    else
      match jsSplitSpace rest with
      | [] => [[c]]
      | t :: ts => (c :: t) :: ts

theorem jsSplitSpace_ne_nil (s : Str) : jsSplitSpace s ≠ [] := by
  cases s with
  | nil => simp [jsSplitSpace]
  | cons c rest =>
    by_cases h : c = ' '
    · simp [jsSplitSpace, h]
    · simp only [jsSplitSpace, if_neg h]
      cases jsSplitSpace rest <;> simp

/-- The character-level split agrees with the library split on a single
separator element. -/
theorem jsSplitSpace_eq_splitOn (s : Str) : jsSplitSpace s = s.splitOn ' ' := by
  induction s with
  | nil => simp [jsSplitSpace, List.splitOn, List.splitOnP_nil]
  | cons c rest ih =>
    by_cases h : c = ' '
    · subst h
      simp [jsSplitSpace, List.splitOn, List.splitOnP_cons, ih]
    · simp only [jsSplitSpace, if_neg h, List.splitOn, List.splitOnP_cons,
        show (c == ' ') = false by simpa using h]
      simp only [List.splitOn] at ih
      rw [← ih]
      cases hsp : jsSplitSpace rest with
      | nil => exact absurd hsp (jsSplitSpace_ne_nil rest)
      | cons t ts => simp [List.modifyHead]

/- ================= normalizeTitle (C4) ================= -/

/-- Translation of `normalizeTitle` from src/index.js lines 902-908 (identical
in src/unnamed/part_004 lines 108-114):

  title.toLowerCase().replace(/[^\w\s]/g, "").split(" ").filter((w) => w.length > 3)

The replace with an empty replacement removes every character that is neither
a word character nor whitespace. -/
def normalizeTitle (title : Str) : List Str :=
  (jsSplitSpace ((jsToLower title).filter
    (fun c => isWordCharJS c || isSpaceCharJS c))).filter (fun w => w.length > 3)

/-- Statement of C4 in the words of the claim, using the library split:
lowercase the title, remove every character that is not a word character or
whitespace, split on single spaces, keep only tokens longer than 3. -/
def normalizeTitleSpec (title : Str) : List Str :=
  (((title.map Char.toLower).filter
    (fun c => isWordCharJS c || isSpaceCharJS c)).splitOn ' ').filter
    (fun w => 3 < w.length)

/-- C4: for every title string, normalizeTitle returns the list of tokens
obtained by lowercasing the title, removing every character that is not a word
character or whitespace, splitting on single spaces, and keeping only tokens
of length strictly greater than 3. -/
theorem normalizeTitle_eq_spec (title : Str) :
    normalizeTitle title = normalizeTitleSpec title := by
  simp only [normalizeTitle, normalizeTitleSpec, jsToLower, jsSplitSpace_eq_splitOn]

/- ================= mapCategory (C5) ================= -/

/-- Does `sub` occur as a prefix at some position of the second argument?
Auxiliary for `strIncludes`. -/
def strIncludesAux (sub : Str) : Str → Bool
  | [] => sub.isEmpty
  | c :: rest => sub.isPrefixOf (c :: rest) || strIncludesAux sub rest

/-- Model of String.prototype.includes for list-of-character strings. -/
def strIncludes (s sub : Str) : Bool := strIncludesAux sub s

/-- Translation of `mapCategory` from src/index.js lines 69-81 (identical in
src/unnamed/part_000 lines 123-135): keywords tested in the order
world, business, sports, technology, health.  The argument is the first
element of the API category array; `none` models a missing array, and the
empty string is falsy in JavaScript, so both return "India" at once. -/
def mapCategory (newsDataCategory : Option Str) : Str :=
  match newsDataCategory with
  | none => "India".toList
  | some s =>
    if s = [] then "India".toList
    else
      let cat := jsToLower s
      if strIncludes cat ("world".toList) then "World".toList
      else if strIncludes cat ("business".toList) then "Business".toList
      else if strIncludes cat ("sports".toList) then "Sports".toList
      else if strIncludes cat ("technology".toList) then "Technology".toList
      else if strIncludes cat ("health".toList) then "Health".toList
      else "India".toList

/-- Translation of `mapCategory` from src/index.js lines 315-327: keywords
tested in the order business, sports, health, technology, world. -/
def mapCategoryAlt (apiCategory : Option Str) : Str :=
  match apiCategory with
  | none => "India".toList
  | some s =>
    if s = [] then "India".toList
    else
      let cat := jsToLower s
      if strIncludes cat ("business".toList) then "Business".toList
      else if strIncludes cat ("sports".toList) then "Sports".toList
      else if strIncludes cat ("health".toList) then "Health".toList
      else if strIncludes cat ("technology".toList) then "Technology".toList
      else if strIncludes cat ("world".toList) then "World".toList
      else "India".toList

/-- How many of the five category keywords occur in the lowercased input. -/
def keywordHits (cat : Str) : Nat :=
  (if strIncludes cat ("world".toList) then 1 else 0) +
  (if strIncludes cat ("business".toList) then 1 else 0) +
  (if strIncludes cat ("sports".toList) then 1 else 0) +
  (if strIncludes cat ("technology".toList) then 1 else 0) +
  (if strIncludes cat ("health".toList) then 1 else 0)

/-- C5 counterexample: on the input "business world", which contains two
keywords, the variant testing world first returns World while the variant
testing business first returns Business, so the two mapCategory variants do
not compute the same function. -/
theorem mapCategory_variants_differ :
    mapCategory (some ("business world".toList)) ≠
      mapCategoryAlt (some ("business world".toList)) := by decide

/-- C5 amended: the two mapCategory variants agree on every input that
contains at most one of the five keywords world, business, sports,
technology, health (in particular on a missing or empty category). -/
theorem mapCategory_variants_agree (s : Option Str)
    (h : ∀ t, s = some t → keywordHits (jsToLower t) ≤ 1) :
    mapCategory s = mapCategoryAlt s := by
  cases s with
  | none => rfl
  | some t =>
    have ht := h t rfl
    by_cases hemp : t = []
    · simp [mapCategory, mapCategoryAlt, hemp]
    · simp only [mapCategory, mapCategoryAlt, if_neg hemp]
      simp only [keywordHits] at ht
      cases h1 : strIncludes (jsToLower t) ("world".toList) <;>
        cases h2 : strIncludes (jsToLower t) ("business".toList) <;>
          cases h3 : strIncludes (jsToLower t) ("sports".toList) <;>
            cases h4 : strIncludes (jsToLower t) ("technology".toList) <;>
              cases h5 : strIncludes (jsToLower t) ("health".toList) <;>
                simp_all

/-- C5 amended, witness: the agreement theorem applied to the concrete
input "sports", which contains exactly one keyword. -/
theorem mapCategory_variants_agree_witness :
    mapCategory (some ("sports".toList)) = mapCategoryAlt (some ("sports".toList)) :=
  mapCategory_variants_agree (some ("sports".toList))
    (fun t ht => by cases ht; decide)

/- ================= word counting ================= -/

/-- Number of maximal runs of non-space characters, with a flag telling
whether the scan is currently inside such a run. -/
def countRunsAux : Bool → Str → Nat
  | _, [] => 0
  | inRun, c :: t =>
    if c = ' ' then countRunsAux false t
    else (if inRun then 0 else 1) + countRunsAux true t

/-- The number of words of a string: maximal space-separated runs of
non-space characters. -/
def countWords (s : Str) : Nat := countRunsAux false s

theorem countRunsAux_nil (b : Bool) : countRunsAux b [] = 0 := rfl

theorem countRunsAux_cons (b : Bool) (c : Char) (t : Str) :
    countRunsAux b (c :: t) =
      if c = ' ' then countRunsAux false t
      else (if b then 0 else 1) + countRunsAux true t := rfl

theorem countRunsAux_append_space (t : Str) :
    ∀ (a : Str) (b : Bool),
      countRunsAux b (a ++ ' ' :: t) = countRunsAux b a + countRunsAux false t := by
  intro a
  induction a with
  | nil => intro b; simp [countRunsAux_cons, countRunsAux_nil]
  | cons c a' ih =>
    intro b
    rw [List.cons_append, countRunsAux_cons, countRunsAux_cons]
    by_cases hc : c = ' '
    · rw [if_pos hc, if_pos hc, ih false]
    · rw [if_neg hc, if_neg hc, ih true]
      omega

theorem countRunsAux_le_count (s : Str) :
    ∀ b : Bool, countRunsAux b s ≤ s.count ' ' + (if b then 0 else 1) := by
  induction s with
  | nil => intro b; simp [countRunsAux_nil]
  | cons c t ih =>
    intro b
    rw [countRunsAux_cons]
    by_cases hc : c = ' '
    · rw [if_pos hc]
      have hcount : (c :: t).count ' ' = t.count ' ' + 1 := by
        subst hc; simp
      have h1 := ih false
      rw [hcount]
      cases b <;> simp at h1 ⊢ <;> omega
    · rw [if_neg hc]
      have hcount : (c :: t).count ' ' = t.count ' ' := by
        simp [List.count_cons, hc]
      have h1 := ih true
      rw [hcount]
      cases b <;> simp at h1 ⊢ <;> omega

theorem countRunsAux_true_le_false (s : Str) :
    countRunsAux true s ≤ countRunsAux false s := by
  cases s with
  | nil => simp [countRunsAux_nil]
  | cons c t =>
    rw [countRunsAux_cons, countRunsAux_cons]
    by_cases hc : c = ' '
    · rw [if_pos hc, if_pos hc]
    · rw [if_neg hc, if_neg hc,
        show (if (true : Bool) = true then (0 : Nat) else 1) = 0 from rfl,
        show (if (false : Bool) = true then (0 : Nat) else 1) = 1 from rfl]
      omega

theorem countRunsAux_false_le_true_succ (s : Str) :
    countRunsAux false s ≤ countRunsAux true s + 1 := by
  cases s with
  | nil => simp [countRunsAux_nil]
  | cons c t =>
    rw [countRunsAux_cons, countRunsAux_cons]
    by_cases hc : c = ' '
    · rw [if_pos hc, if_pos hc]; omega
    · rw [if_neg hc, if_neg hc,
        show (if (true : Bool) = true then (0 : Nat) else 1) = 0 from rfl,
        show (if (false : Bool) = true then (0 : Nat) else 1) = 1 from rfl]
      omega

theorem countWords_le_cons (c : Char) (t : Str) :
    countWords t ≤ countWords (c :: t) := by
  unfold countWords
  rw [countRunsAux_cons]
  by_cases hc : c = ' '
  · rw [if_pos hc]
  · rw [if_neg hc,
      show (if (false : Bool) = true then (0 : Nat) else 1) = 1 from rfl]
    have := countRunsAux_false_le_true_succ t
    omega

theorem countWords_dropWhile_le (p : Char → Bool) (s : Str) :
    countWords (s.dropWhile p) ≤ countWords s := by
  induction s with
  | nil => simp
  | cons c t ih =>
    by_cases hc : p c
    · rw [List.dropWhile_cons, if_pos hc]
      exact le_trans ih (countWords_le_cons c t)
    · rw [List.dropWhile_cons, if_neg (by simp [hc])]

theorem countRunsAux_le_append (y : Str) :
    ∀ (x : Str) (b : Bool), countRunsAux b x ≤ countRunsAux b (x ++ y) := by
  intro x
  induction x with
  | nil => intro b; simp [countRunsAux_nil]
  | cons c x' ih =>
    intro b
    rw [List.cons_append, countRunsAux_cons, countRunsAux_cons]
    by_cases hc : c = ' '
    · rw [if_pos hc, if_pos hc]
      exact ih false
    · rw [if_neg hc, if_neg hc]
      have := ih true
      omega

/-- Model of String.prototype.trim: drop JavaScript whitespace from both
ends. -/
def jsTrim (s : Str) : Str :=
  ((s.dropWhile isSpaceCharJS).reverse.dropWhile isSpaceCharJS).reverse

theorem countWords_jsTrim_le (s : Str) : countWords (jsTrim s) ≤ countWords s := by
  have key : ∀ r : Str, countWords (r.dropWhile isSpaceCharJS).reverse ≤
      countWords r.reverse := by
    intro r
    conv_rhs => rw [← @List.takeWhile_append_dropWhile _ isSpaceCharJS r]
    rw [List.reverse_append]
    exact countRunsAux_le_append _ _ false
  have h1 := key (s.dropWhile isSpaceCharJS).reverse
  rw [List.reverse_reverse] at h1
  exact le_trans h1 (countWords_dropWhile_le isSpaceCharJS s)

theorem length_jsSplitSpace (s : Str) :
    (jsSplitSpace s).length = s.count ' ' + 1 := by
  induction s with
  | nil => simp [jsSplitSpace]
  | cons c t ih =>
    by_cases hc : c = ' '
    · subst hc
      simp [jsSplitSpace, List.count_cons_self, ih]
    · simp only [jsSplitSpace, if_neg hc]
      have hcount : (c :: t).count ' ' = t.count ' ' := by
        simp [List.count_cons, hc]
      cases hsp : jsSplitSpace t with
      | nil => exact absurd hsp (jsSplitSpace_ne_nil t)
      | cons u us =>
        have h2 : (u :: us).length = t.count ' ' + 1 := hsp ▸ ih
        simpa [hcount] using h2

/- ================= regex scrubbing combinator ================= -/

/-- One global-replace-with-empty pass: `m s` returns the length of the match
starting at the head of `s`, if any.  A match is removed and scanning resumes
after it; otherwise one character is kept and scanning moves on.  Fuel is the
initial string length, so the scan never runs out.  A `some 0` answer (which
no matcher below produces) is treated as no match. -/
def scrubFuel (m : Str → Option Nat) : Nat → Str → Str
  | 0, s => s
  | _ + 1, [] => []
  | fuel + 1, c :: rest =>
    match m (c :: rest) with
    | some (k + 1) => scrubFuel m fuel ((c :: rest).drop (k + 1))
    | _ => c :: scrubFuel m fuel rest

/-- Remove every match of `m` from the string, scanning left to right. -/
def scrub (m : Str → Option Nat) (s : Str) : Str := scrubFuel m s.length s

/-- Matcher for the regular expression https?:\/\/\S+ used in
cleanAndTrimSummary (src/index.js line 38). -/
def matchUrl (s : Str) : Option Nat :=
  if ("http".toList).isPrefixOf s then
    let afterHttp := s.drop 4
    let tryRest := fun (t : Str) (base : Nat) =>
      if ("://".toList).isPrefixOf t then
        let body := (t.drop 3).takeWhile (fun c => !isSpaceCharJS c)
        if body.length > 0 then some (base + 3 + body.length) else none
      else none
    match afterHttp with
    | 's' :: t' =>
      match tryRest t' 5 with
      | some k => some k
      | none => tryRest afterHttp 4
    | _ => tryRest afterHttp 4
  else none

/-- Matcher for the regular expression pic\.twitter\.com\S* used in
cleanAndTrimSummary (src/index.js line 39). -/
def matchPic (s : Str) : Option Nat :=
  if ("pic.twitter.com".toList).isPrefixOf s then
    some (15 + ((s.drop 15).takeWhile (fun c => !isSpaceCharJS c)).length)
  else none

/-- Matcher for the regular expression â€”.*?(\.|\n) used in
cleanAndTrimSummary (src/index.js line 40): the three literal characters
followed lazily by anything up to the first period or newline. -/
def matchDash (s : Str) : Option Nat :=
  if ("â€”".toList).isPrefixOf s then
    let t := s.drop 3
    let pre := t.takeWhile (fun c => !(c = '.' || c = '\n'))
    if pre.length < t.length then some (3 + pre.length + 1) else none
  else none

/-- Matcher for the regular expression \[.*?\] used in cleanAndTrimSummary
(src/index.js line 41): an opening bracket, then lazily anything up to the
first closing bracket, with no newline in between. -/
def matchBracket (s : Str) : Option Nat :=
  match s with
  | '[' :: t =>
    let pre := t.takeWhile (fun c => !(c = ']' || c = '\n'))
    match t.drop pre.length with
    | ']' :: _ => some (pre.length + 2)
    | _ => none
  | _ => none

/-- Model of text.split(pat)[0]: the prefix before the first occurrence of
`pat` (src/index.js line 42 with pat = "Also Read"). -/
def takeBefore (pat : Str) : Str → Str
  | [] => []
  | c :: rest => if pat.isPrefixOf (c :: rest) then [] else c :: takeBefore pat rest

/-- Model of text.replace(/(\d)\.(\d)/g, "$1_DECIMAL_$2") from
src/index.js line 43: a period between two digits becomes _DECIMAL_, and
scanning resumes after the second digit, as the JavaScript global-regex
lastIndex does. -/
def protectDecimals : Str → Str
  | a :: '.' :: b :: rest =>
    if a.isDigit && b.isDigit then
      a :: ("_DECIMAL_".toList ++ b :: protectDecimals rest)
    else a :: protectDecimals ('.' :: b :: rest)
  | a :: rest => a :: protectDecimals rest
  | [] => []

/-- One pass of text.replace(/\s+/g, " ") with fuel (src/index.js line 44):
each maximal run of whitespace becomes a single space. -/
def collapseWsFuel : Nat → Str → Str
  | 0, s => s
  | _ + 1, [] => []
  | fuel + 1, c :: rest =>
    if isSpaceCharJS c then ' ' :: collapseWsFuel fuel (rest.dropWhile isSpaceCharJS)
    else c :: collapseWsFuel fuel rest

/-- Model of text.replace(/\s+/g, " "). -/
def collapseWs (s : Str) : Str := collapseWsFuel s.length s

/-- Global replacement of a literal non-empty pattern, with fuel. -/
def replaceAllFuel (pat rep : Str) : Nat → Str → Str
  | 0, s => s
  | _ + 1, [] => []
  | fuel + 1, c :: rest =>
    if !pat.isEmpty && pat.isPrefixOf (c :: rest) then
      rep ++ replaceAllFuel pat rep fuel ((c :: rest).drop pat.length)
    else c :: replaceAllFuel pat rep fuel rest

/-- Model of s.replace(pat, rep) with a global literal pattern, used for
restoring _DECIMAL_ back to a period (src/index.js line 53). -/
def replaceAll (pat rep s : Str) : Str := replaceAllFuel pat rep s.length s

/- ================= sentence matching ================= -/

/-- The sentence terminators of the regular expression at
src/index.js line 46. -/
def isTermChar (c : Char) : Bool := c = '.' || c = '!' || c = '?'

/-- Model of text.match(/[^\.!\?]+[\.!\?]+/g) with fuel: the global matches
are the blocks made of a maximal run of non-terminators followed by a maximal
run of terminators; a trailing run with no terminator matches nothing, and a
null match result is modelled by the empty list. -/
def matchSentencesFuel : Nat → Str → List Str
  | 0, _ => []
  | _ + 1, [] => []
  | fuel + 1, c :: rest =>
    if isTermChar c then matchSentencesFuel fuel rest
    else
      let body := (c :: rest).takeWhile (fun d => !isTermChar d)
      let after := (c :: rest).dropWhile (fun d => !isTermChar d)
      if after.isEmpty then []
      else
        let terms := after.takeWhile isTermChar
        (body ++ terms) :: matchSentencesFuel fuel (after.dropWhile isTermChar)

/-- Model of text.match(/[^\.!\?]+[\.!\?]+/g). -/
def matchSentences (s : Str) : List Str := matchSentencesFuel s.length s

/-- The string has no sentence terminated by a period, exclamation mark or
question mark: it is a run of terminators followed by a run of
non-terminators, so no terminator ever follows a non-terminator. -/
def noSentence (s : Str) : Prop :=
  ∃ a b : Str, s = a ++ b ∧ (∀ c ∈ a, isTermChar c = true) ∧
    (∀ c ∈ b, isTermChar c = false)

theorem matchSentencesFuel_eq_nil :
    ∀ (a : Str) (fuel : Nat) (b : Str), (∀ c ∈ a, isTermChar c = true) →
      (∀ c ∈ b, isTermChar c = false) → matchSentencesFuel fuel (a ++ b) = [] := by
  intro a
  induction a with
  | nil =>
    intro fuel b _ hb
    cases fuel with
    | zero => rfl
    | succ fuel =>
      cases b with
      | nil => rfl
      | cons c rest =>
        have hc : isTermChar c = false := hb c (List.mem_cons_self c rest)
        simp only [List.nil_append, matchSentencesFuel, hc, if_false]
        have hdrop : (c :: rest).dropWhile (fun d => !isTermChar d) = [] := by
          rw [List.dropWhile_eq_nil_iff]
          intro x hx
          simp [hb x hx]
        rw [hdrop]
        simp
  | cons c a' ih =>
    intro fuel b ha hb
    cases fuel with
    | zero => rfl
    | succ fuel =>
      have hc : isTermChar c = true := ha c (List.mem_cons_self c a')
      simp only [List.cons_append, matchSentencesFuel, hc, if_true]
      exact ih fuel b (fun x hx => ha x (List.mem_cons_of_mem c hx)) hb

/- ================= cleanAndTrimSummary (C6) ================= -/

/-- The sentence-accumulation loop of cleanAndTrimSummary
(src/index.js lines 49-62), returning the text contributed from the current
point on: restore decimals, trim, count words by split(" "), stop before a
sentence that would exceed maxWords, stop after reaching minWords. -/
def sentenceLoop (minW maxW : Nat) : List Str → Nat → Str
  | [], _ => []
  | s :: rest, wc =>
    let piece := jsTrim (replaceAll ("_DECIMAL_".toList) ['.'] s)
    let words := (jsSplitSpace piece).length
    if wc + words > maxW then []
    else piece ++ ' ' ::
      (if wc + words ≥ minW then [] else sentenceLoop minW maxW rest (wc + words))

/-- The cleaning pipeline of cleanAndTrimSummary (src/index.js lines 38-44):
remove URLs, twitter picture links, dash clauses and bracketed text, cut at
"Also Read", protect decimal points, collapse whitespace and trim. -/
def cleanPhase (text : Str) : Str :=
  jsTrim (collapseWs (protectDecimals (takeBefore ("Also Read".toList)
    (scrub matchBracket (scrub matchDash (scrub matchPic (scrub matchUrl text)))))))

/-- Translation of `cleanAndTrimSummary` from src/index.js lines 35-65
(src/unnamed/part_000 lines 89-119 differs only in the literal dash
characters): null or empty text gives the empty string, a cleaned text with
no sentence match gives the empty string, and otherwise whole sentences are
accumulated within the word budget. -/
def cleanAndTrimSummary (text : Str) (minW maxW : Nat) : Str :=
  if text.isEmpty then []
  else
    let sentences := matchSentences (cleanPhase text)
    if sentences.isEmpty then []
    else jsTrim (sentenceLoop minW maxW sentences 0)

theorem sentenceLoop_bound (minW maxW : Nat) :
    ∀ (ss : List Str) (wc : Nat), wc ≤ maxW →
      countWords (sentenceLoop minW maxW ss wc) ≤ maxW - wc := by
  intro ss
  induction ss with
  | nil => intro wc _; simp [sentenceLoop, countWords, countRunsAux_nil]
  | cons s rest ih =>
    intro wc hwc
    rw [sentenceLoop]
    by_cases hbig :
        wc + (jsSplitSpace (jsTrim (replaceAll ("_DECIMAL_".toList) ['.'] s))).length
          > maxW
    · rw [if_pos hbig]
      simp [countWords, countRunsAux_nil]
    · rw [if_neg hbig]
      push_neg at hbig
      have hpiece : countWords (jsTrim (replaceAll ("_DECIMAL_".toList) ['.'] s)) ≤
          (jsSplitSpace (jsTrim (replaceAll ("_DECIMAL_".toList) ['.'] s))).length := by
        rw [length_jsSplitSpace]
        have := countRunsAux_le_count
          (jsTrim (replaceAll ("_DECIMAL_".toList) ['.'] s)) false
        simpa [countWords] using this
      rw [countWords, countRunsAux_append_space]
      by_cases hmin :
          wc + (jsSplitSpace (jsTrim (replaceAll ("_DECIMAL_".toList) ['.'] s))).length
            ≥ minW
      · rw [if_pos hmin]
        rw [countRunsAux_nil]
        simp only [countWords] at hpiece
        omega
      · rw [if_neg hmin]
        have h2 := ih _ hbig
        simp only [countWords] at hpiece h2
        omega

/-- C6: for every input text, cleanAndTrimSummary returns a summary containing
at most maxWords words (in particular at most 110 at the default); it returns
the empty string when the input is empty or null, and also when after cleaning
the text contains no sentence terminated by a period, exclamation mark or
question mark. -/
theorem cleanAndTrimSummary_spec (text : Str) (minW maxW : Nat) :
    countWords (cleanAndTrimSummary text minW maxW) ≤ maxW ∧
    cleanAndTrimSummary [] minW maxW = [] ∧
    (noSentence (cleanPhase text) → cleanAndTrimSummary text minW maxW = []) := by
  refine ⟨?_, rfl, ?_⟩
  · rw [cleanAndTrimSummary]
    by_cases hemp : text.isEmpty
    · rw [if_pos hemp]
      simp [countWords, countRunsAux_nil]
    · rw [if_neg hemp]
      by_cases hs : (matchSentences (cleanPhase text)).isEmpty
      · rw [if_pos hs]
        simp [countWords, countRunsAux_nil]
      · rw [if_neg hs]
        calc countWords (jsTrim (sentenceLoop minW maxW
                (matchSentences (cleanPhase text)) 0))
            ≤ countWords (sentenceLoop minW maxW
                (matchSentences (cleanPhase text)) 0) := countWords_jsTrim_le _
          _ ≤ maxW - 0 := sentenceLoop_bound minW maxW _ 0 (Nat.zero_le _)
          _ ≤ maxW := by omega
  · rintro ⟨a, b, heq, ha, hb⟩
    rw [cleanAndTrimSummary]
    by_cases hemp : text.isEmpty
    · rw [if_pos hemp]
    · rw [if_neg hemp]
      have hnil : matchSentences (cleanPhase text) = [] := by
        rw [matchSentences, heq]
        exact matchSentencesFuel_eq_nil a _ b ha hb
      rw [if_pos (by rw [hnil]; rfl)]

/-- C6 witness: the specification applied to the concrete input
"hello world", whose cleaned form has no sentence terminator, so the summary
is empty (and in particular within the word budget). -/
theorem cleanAndTrimSummary_spec_witness :
    countWords (cleanAndTrimSummary ("hello world".toList) 80 110) ≤ 110 ∧
    cleanAndTrimSummary ("hello world".toList) 80 110 = [] :=
  ⟨(cleanAndTrimSummary_spec ("hello world".toList) 80 110).1,
   (cleanAndTrimSummary_spec ("hello world".toList) 80 110).2.2
     ⟨[], cleanPhase ("hello world".toList), by simp, by simp, by decide⟩⟩

/- ================= data model ================= -/

/-- A stored news document, as written by the ingestion loops.  The id models
the Firestore document id; timestamps are epoch milliseconds. -/
structure NewsDoc where
  id : Nat
  title : Str
  summary : Str
  category : Str
  language : Str
  source : Str
  sourceUrl : Str
  image : Str
  breaking : Bool
  likes : Int
  views : Int
  likedBy : List Str
  viewedBy : List Str
  timestamp : Int
deriving DecidableEq

/-- An article of the NewsData API response, with the fields the ingestion
loops read.  categoryHead is the first element of the category array, absent
when the array is missing or empty. -/
structure ApiItem where
  title : Str
  link : Str
  description : Str
  image_url : Str
  categoryHead : Option Str
  source_id : Str
deriving DecidableEq

/-- Model of the JavaScript expression a || b on strings: the empty string is
falsy. -/
def jsOrStr (a b : Str) : Str := if a.isEmpty then b else a

/-- Translation of `isBreaking` from src/index.js lines 890-898. -/
def isBreaking (title : Str) : Bool :=
  let t := jsToLower title
  strIncludes t ("breaking".toList) || strIncludes t ("live".toList) ||
  strIncludes t ("alert".toList) || strIncludes t ("just in".toList)

/- ================= word-budget summary cleaner (index.js variant 4) ====== -/

/-- Model of cleaned.replace(/\.\.\.+$/, "") from src/index.js line 857: a
trailing run of three or more periods is removed. -/
def removeTrailingDots (s : Str) : Str :=
  if (s.reverse.takeWhile (fun c => c = '.')).length ≥ 3 then
    (s.reverse.dropWhile (fun c => c = '.')).reverse
  else s

/-- Model of String.prototype.lastIndexOf(".") (src/index.js line 864). -/
def lastIndexOfDot (s : Str) : Int :=
  match s.reverse.findIdx? (fun c => c = '.') with
  | some i => (s.length : Int) - 1 - i
  | none => -1

/-- Translation of the word-based `cleanAndTrimSummary` from
src/index.js lines 853-870: collapse whitespace, trim, strip a trailing
ellipsis, and cut to maxWords words, preferring to end at a period found
after position 60. -/
def cleanAndTrimSummaryW (text : Str) (maxWords : Nat) : Str :=
  if text.isEmpty then []
  else
    let cleaned := removeTrailingDots (jsTrim (collapseWs text))
    let words := jsSplitSpace cleaned
    if words.length ≤ maxWords then cleaned
    else
      let trimmed := List.intercalate [' '] (words.take maxWords)
      let lastPeriod := lastIndexOfDot trimmed
      if lastPeriod > 60 then trimmed.take (lastPeriod.toNat + 1)
      else trimmed ++ ['.']

/- ================= fetchNews duplicate scan (C2, C3) ================= -/

/-- The update object built in the merge branch of fetchNews
(src/index.js lines 973-987): a field is present exactly when the code adds
it to the update object. -/
structure MergeUpdate where
  summary : Option Str
  image : Option Str
deriving DecidableEq

/-- Translation of the merge-branch conditions from src/index.js
lines 975-984: the summary is included when the new cleaned summary is
strictly longer than the stored one, the image when the stored image is empty
and the new article has one. -/
def computeMergeUpdate (dup : NewsDoc) (summary image : Str) : MergeUpdate :=
  { summary := if summary.length > dup.summary.length then some summary else none,
    image := if dup.image.isEmpty && !image.isEmpty then some image else none }

/-- What one iteration of the fetchNews item loop decides to do. -/
inductive FetchAction where
  | skip : FetchAction
  | merge (target : NewsDoc) (upd : MergeUpdate) : FetchAction
  | add (item : ApiItem) (summary : Str) : FetchAction
deriving DecidableEq

/-- One step of the best-duplicate scan of src/index.js lines 958-966:
keep the candidate when its similarity exceeds both 0.65 and the best so
far. -/
def scanStep (w : List Str) (acc : Option NewsDoc × ℚ) (d : NewsDoc) :
    Option NewsDoc × ℚ :=
  let s := similarity w (normalizeTitle d.title)
  if 13/20 < s ∧ acc.2 < s then (some d, s) else acc

/-- The duplicate scan over the recent window (src/index.js lines 955-966),
starting from no candidate and highest similarity 0. -/
def scanBest (w : List Str) (recent : List NewsDoc) : Option NewsDoc × ℚ :=
  recent.foldl (scanStep w) (none, 0)

/-- The recent window read at the start of fetchNews
(src/index.js lines 938-949): documents stored within the last six hours
(21600000 milliseconds). -/
def recentWindow (db : List NewsDoc) (now : Int) : List NewsDoc :=
  db.filter (fun d => now - 21600000 < d.timestamp)

/-- One iteration of the fetchNews item loop of src/index.js lines 951-1006:
skip on missing title or link, merge into the best similar recent document if
one exceeds similarity 0.65, otherwise add a new document. -/
def processItemIdx (recent : List NewsDoc) (item : ApiItem) : FetchAction :=
  if item.title.isEmpty || item.link.isEmpty then .skip
  else
    match (scanBest (normalizeTitle item.title) recent).1 with
    | some dup =>
      .merge dup (computeMergeUpdate dup (cleanAndTrimSummaryW item.description 100)
        item.image_url)
    | none => .add item (cleanAndTrimSummaryW item.description 100)

/-- One iteration of the fetchNews item loop of src/unnamed/part_004
lines 183-240: same as processItemIdx, except that the sentence-based
cleaner with the 80/110 word budget is used and an article whose cleaned
summary is empty is skipped entirely. -/
def processItemP4 (recent : List NewsDoc) (item : ApiItem) : FetchAction :=
  if item.title.isEmpty || item.link.isEmpty then .skip
  else if (cleanAndTrimSummary item.description 80 110).isEmpty then .skip
  else
    match (scanBest (normalizeTitle item.title) recent).1 with
    | some dup =>
      .merge dup (computeMergeUpdate dup (cleanAndTrimSummary item.description 80 110)
        item.image_url)
    | none => .add item (cleanAndTrimSummary item.description 80 110)

/-- Applying a merge update to a stored document: present fields overwrite,
absent fields keep the stored value. -/
def applyMergeUpdate (upd : MergeUpdate) (d : NewsDoc) : NewsDoc :=
  { d with summary := upd.summary.getD d.summary, image := upd.image.getD d.image }

/-- The document written by the add branch of fetchNews
(src/index.js lines 992-1005), with the server timestamp modelled by `now`
and the fresh document id by `newId`. -/
def docOfItem (item : ApiItem) (summary : Str) (now : Int) (newId : Nat) : NewsDoc :=
  { id := newId, title := item.title, summary := summary,
    category := mapCategory item.categoryHead, language := [],
    source := jsOrStr item.source_id ("News".toList), sourceUrl := item.link,
    image := item.image_url, breaking := isBreaking item.title,
    likes := 0, views := 0, likedBy := [], viewedBy := [], timestamp := now }

/-- The effect of one item of the fetchNews loop on the stored collection:
a merge updates the target document when the update object is non-empty and
writes nothing otherwise; an add appends a new document. -/
def applyAction (db : List NewsDoc) (act : FetchAction) (now : Int) (newId : Nat) :
    List NewsDoc :=
  match act with
  | .skip => db
  | .merge dup upd =>
    if upd = { summary := none, image := none } then db
    else db.map (fun d => if d.id = dup.id then applyMergeUpdate upd d else d)
  | .add item summary => db ++ [docOfItem item summary now newId]

theorem scanBest_go (w : List Str) :
    ∀ (l : List NewsDoc) (acc : Option NewsDoc × ℚ),
      (acc.1 = none → acc.2 = 0) →
      (∀ d0, acc.1 = some d0 →
        acc.2 = similarity w (normalizeTitle d0.title) ∧ 13/20 < acc.2) →
      ((l.foldl (scanStep w) acc).1 = none →
          l.foldl (scanStep w) acc = acc ∧
          ∀ d ∈ l, ¬(13/20 < similarity w (normalizeTitle d.title))) ∧
      (∀ dup, (l.foldl (scanStep w) acc).1 = some dup →
          (dup ∈ l ∨ acc.1 = some dup) ∧
          (l.foldl (scanStep w) acc).2 = similarity w (normalizeTitle dup.title) ∧
          13/20 < (l.foldl (scanStep w) acc).2 ∧
          acc.2 ≤ (l.foldl (scanStep w) acc).2 ∧
          ∀ d ∈ l, similarity w (normalizeTitle d.title) ≤
            max (l.foldl (scanStep w) acc).2 (13/20)) := by
  intro l
  induction l with
  | nil =>
    intro acc h0 h1
    refine ⟨fun _ => ⟨rfl, by simp⟩, fun dup hdup => ?_⟩
    simp only [List.foldl_nil] at hdup ⊢
    obtain ⟨he, hgt⟩ := h1 dup hdup
    exact ⟨Or.inr hdup, he, hgt, le_refl _, by simp⟩
  | cons d0 l ih =>
    intro acc h0 h1
    simp only [List.foldl_cons]
    by_cases hcond : 13/20 < similarity w (normalizeTitle d0.title) ∧
        acc.2 < similarity w (normalizeTitle d0.title)
    · have hstep : scanStep w acc d0 =
          (some d0, similarity w (normalizeTitle d0.title)) := by
        unfold scanStep
        rw [if_pos hcond]
      rw [hstep]
      have h0' : ((some d0, similarity w (normalizeTitle d0.title)) :
          Option NewsDoc × ℚ).1 = none →
          ((some d0, similarity w (normalizeTitle d0.title)) :
            Option NewsDoc × ℚ).2 = 0 := fun h => Option.noConfusion h
      have h1' : ∀ dd, ((some d0, similarity w (normalizeTitle d0.title)) :
          Option NewsDoc × ℚ).1 = some dd →
          ((some d0, similarity w (normalizeTitle d0.title)) :
            Option NewsDoc × ℚ).2 = similarity w (normalizeTitle dd.title) ∧
          13/20 < ((some d0, similarity w (normalizeTitle d0.title)) :
            Option NewsDoc × ℚ).2 := by
        intro dd h
        have : d0 = dd := by simpa using h
        subst this
        exact ⟨rfl, hcond.1⟩
      obtain ⟨ihn, ihs⟩ := ih (some d0, similarity w (normalizeTitle d0.title)) h0' h1'
      constructor
      · intro hnone
        obtain ⟨heq, -⟩ := ihn hnone
        rw [heq] at hnone
        exact Option.noConfusion hnone
      · intro dup hdup
        obtain ⟨hmem, hval, hgt, hge, hmax⟩ := ihs dup hdup
        refine ⟨?_, hval, hgt, ?_, ?_⟩
        · rcases hmem with h | h
          · exact Or.inl (List.mem_cons_of_mem _ h)
          · have : d0 = dup := by simpa using h
            exact Or.inl (this ▸ List.mem_cons_self _ _)
        · have h2 := hcond.2
          simp only at hge
          linarith
        · intro d hd
          rcases List.mem_cons.mp hd with rfl | hd2
          · simp only at hge
            exact le_trans hge (le_max_left _ _)
          · exact hmax d hd2
    · have hstep : scanStep w acc d0 = acc := by
        unfold scanStep
        rw [if_neg hcond]
      rw [hstep]
      obtain ⟨ihn, ihs⟩ := ih acc h0 h1
      constructor
      · intro hnone
        obtain ⟨heq, hall⟩ := ihn hnone
        refine ⟨heq, fun d hd => ?_⟩
        rcases List.mem_cons.mp hd with rfl | hd2
        · intro hgt
          have hacc : acc.1 = none := by rw [heq] at hnone; exact hnone
          have hzero := h0 hacc
          exact hcond ⟨hgt, by rw [hzero]; linarith⟩
        · exact hall d hd2
      · intro dup hdup
        obtain ⟨hmem, hval, hgt, hge, hmax⟩ := ihs dup hdup
        refine ⟨?_, hval, hgt, hge, fun d hd => ?_⟩
        · rcases hmem with h | h
          · exact Or.inl (List.mem_cons_of_mem _ h)
          · exact Or.inr h
        · rcases List.mem_cons.mp hd with rfl | hd2
          · by_cases hx : 13/20 < similarity w (normalizeTitle d.title)
            · have hy : ¬(acc.2 < similarity w (normalizeTitle d.title)) :=
                fun hy => hcond ⟨hx, hy⟩
              push_neg at hy
              exact le_trans hy (le_trans hge (le_max_left _ _))
            · push_neg at hx
              exact le_trans hx (le_max_right _ _)
          · exact hmax d hd2

theorem scanBest_none_spec (w : List Str) (recent : List NewsDoc)
    (h : (scanBest w recent).1 = none) :
    ∀ d ∈ recent, ¬(13/20 < similarity w (normalizeTitle d.title)) := by
  have := (scanBest_go w recent (none, 0) (fun _ => rfl)
    (fun d0 hd0 => Option.noConfusion hd0)).1 h
  exact this.2

theorem scanBest_some_spec (w : List Str) (recent : List NewsDoc) (dup : NewsDoc)
    (h : (scanBest w recent).1 = some dup) :
    dup ∈ recent ∧ 13/20 < similarity w (normalizeTitle dup.title) ∧
      ∀ d ∈ recent, similarity w (normalizeTitle d.title) ≤
        similarity w (normalizeTitle dup.title) := by
  obtain ⟨hmem, hval, hgt, -, hmax⟩ := (scanBest_go w recent (none, 0) (fun _ => rfl)
    (fun d0 hd0 => Option.noConfusion hd0)).2 dup h
  have hmem2 : dup ∈ recent := by
    rcases hmem with h2 | h2
    · exact h2
    · exact Option.noConfusion h2
  refine ⟨hmem2, hval ▸ hgt, fun d hd => ?_⟩
  have := hmax d hd
  rw [max_eq_left (le_of_lt (hval ▸ hgt : (13 : ℚ)/20 < _)), hval] at this
  exact this

theorem processItemIdx_eq_merge {recent : List NewsDoc} {item : ApiItem}
    (ht : item.title ≠ []) (hl : item.link ≠ []) (dup : NewsDoc) (upd : MergeUpdate) :
    processItemIdx recent item = FetchAction.merge dup upd ↔
      ((scanBest (normalizeTitle item.title) recent).1 = some dup ∧
        upd = computeMergeUpdate dup (cleanAndTrimSummaryW item.description 100)
          item.image_url) := by
  have ht2 : item.title.isEmpty = false := by
    cases htl : item.title with
    | nil => exact absurd htl ht
    | cons c cs => rfl
  have hl2 : item.link.isEmpty = false := by
    cases hll : item.link with
    | nil => exact absurd hll hl
    | cons c cs => rfl
  unfold processItemIdx
  rw [ht2, hl2]
  simp only [Bool.or_self, Bool.false_eq_true, if_false]
  cases hscan : (scanBest (normalizeTitle item.title) recent).1 with
  | none => simp
  | some d2 =>
    simp only
    constructor
    · intro h
      injection h with h1 h2
      subst h1
      exact ⟨rfl, h2.symm⟩
    · rintro ⟨h1, rfl⟩
      injection h1 with h1
      subst h1
      rfl

theorem processItemP4_eq_merge {recent : List NewsDoc} {item : ApiItem}
    (ht : item.title ≠ []) (hl : item.link ≠ [])
    (hs : cleanAndTrimSummary item.description 80 110 ≠ [])
    (dup : NewsDoc) (upd : MergeUpdate) :
    processItemP4 recent item = FetchAction.merge dup upd ↔
      ((scanBest (normalizeTitle item.title) recent).1 = some dup ∧
        upd = computeMergeUpdate dup (cleanAndTrimSummary item.description 80 110)
          item.image_url) := by
  have ht2 : item.title.isEmpty = false := by
    cases htl : item.title with
    | nil => exact absurd htl ht
    | cons c cs => rfl
  have hl2 : item.link.isEmpty = false := by
    cases hll : item.link with
    | nil => exact absurd hll hl
    | cons c cs => rfl
  have hs2 : (cleanAndTrimSummary item.description 80 110).isEmpty = false := by
    cases hsl : cleanAndTrimSummary item.description 80 110 with
    | nil => exact absurd hsl hs
    | cons c cs => rfl
  unfold processItemP4
  rw [ht2, hl2, hs2]
  simp only [Bool.or_self, Bool.false_eq_true, if_false]
  cases hscan : (scanBest (normalizeTitle item.title) recent).1 with
  | none => simp
  | some d2 =>
    simp only
    constructor
    · intro h
      injection h with h1 h2
      subst h1
      exact ⟨rfl, h2.symm⟩
    · rintro ⟨h1, rfl⟩
      injection h1 with h1
      subst h1
      rfl

theorem merge_criterion_of_scan (db : List NewsDoc) (now : Int) (item : ApiItem)
    (act : FetchAction) (summ : Str)
    (hact : ∀ dup upd, act = FetchAction.merge dup upd ↔
      ((scanBest (normalizeTitle item.title) (recentWindow db now)).1 = some dup ∧
        upd = computeMergeUpdate dup summ item.image_url)) :
    ((∃ dup upd, act = FetchAction.merge dup upd) ↔
      ∃ d ∈ db, now - 21600000 < d.timestamp ∧
        13/20 < similarity (normalizeTitle item.title) (normalizeTitle d.title)) ∧
    (∀ dup upd, act = FetchAction.merge dup upd →
      dup ∈ recentWindow db now ∧
      13/20 < similarity (normalizeTitle item.title) (normalizeTitle dup.title) ∧
      ∀ d ∈ recentWindow db now,
        similarity (normalizeTitle item.title) (normalizeTitle d.title) ≤
          similarity (normalizeTitle item.title) (normalizeTitle dup.title)) := by
  constructor
  · constructor
    · rintro ⟨dup, upd, h⟩
      obtain ⟨hscan, -⟩ := (hact dup upd).mp h
      obtain ⟨hmem, hgt, -⟩ := scanBest_some_spec _ _ _ hscan
      have hf := List.mem_filter.mp hmem
      exact ⟨dup, hf.1, of_decide_eq_true hf.2, hgt⟩
    · rintro ⟨d, hd, hts, hsim⟩
      have hdmem : d ∈ recentWindow db now :=
        List.mem_filter.mpr ⟨hd, decide_eq_true hts⟩
      cases hscan : (scanBest (normalizeTitle item.title) (recentWindow db now)).1 with
      | none => exact absurd hsim (scanBest_none_spec _ _ hscan d hdmem)
      | some dup => exact ⟨dup, _, (hact dup _).mpr ⟨hscan, rfl⟩⟩
  · intro dup upd h
    obtain ⟨hscan, -⟩ := (hact dup upd).mp h
    exact scanBest_some_spec _ _ _ hscan

/-- C2 amended: in both similarity-based ingestion variants, an incoming
article with non-empty title and link is merged into an existing stored
article (rather than added) exactly when some article stored within the
preceding six hours has normalized-title similarity strictly above 0.65, and
the chosen target has maximal similarity within the window; in the part_004
variant this holds under the additional hypothesis that the cleaned summary
of the incoming article is non-empty (otherwise the article is skipped
entirely, neither merged nor added). -/
theorem fetchNews_merge_criterion :
    (∀ (db : List NewsDoc) (now : Int) (item : ApiItem),
      item.title ≠ [] → item.link ≠ [] →
      ((∃ dup upd, processItemIdx (recentWindow db now) item =
          FetchAction.merge dup upd) ↔
        ∃ d ∈ db, now - 21600000 < d.timestamp ∧
          13/20 < similarity (normalizeTitle item.title) (normalizeTitle d.title)) ∧
      (∀ dup upd, processItemIdx (recentWindow db now) item =
          FetchAction.merge dup upd →
        dup ∈ recentWindow db now ∧
        13/20 < similarity (normalizeTitle item.title) (normalizeTitle dup.title) ∧
        ∀ d ∈ recentWindow db now,
          similarity (normalizeTitle item.title) (normalizeTitle d.title) ≤
            similarity (normalizeTitle item.title) (normalizeTitle dup.title))) ∧
    (∀ (db : List NewsDoc) (now : Int) (item : ApiItem),
      item.title ≠ [] → item.link ≠ [] →
      cleanAndTrimSummary item.description 80 110 ≠ [] →
      ((∃ dup upd, processItemP4 (recentWindow db now) item =
          FetchAction.merge dup upd) ↔
        ∃ d ∈ db, now - 21600000 < d.timestamp ∧
          13/20 < similarity (normalizeTitle item.title) (normalizeTitle d.title)) ∧
      (∀ dup upd, processItemP4 (recentWindow db now) item =
          FetchAction.merge dup upd →
        dup ∈ recentWindow db now ∧
        13/20 < similarity (normalizeTitle item.title) (normalizeTitle dup.title) ∧
        ∀ d ∈ recentWindow db now,
          similarity (normalizeTitle item.title) (normalizeTitle d.title) ≤
            similarity (normalizeTitle item.title) (normalizeTitle dup.title))) := by
  constructor
  · intro db now item ht hl
    exact merge_criterion_of_scan db now item _ _
      (fun dup upd => processItemIdx_eq_merge ht hl dup upd)
  · intro db now item ht hl hs
    exact merge_criterion_of_scan db now item _ _
      (fun dup upd => processItemP4_eq_merge ht hl hs dup upd)

theorem str_isEmpty_true {s : Str} (h : s.isEmpty = true) : s = [] := by
  cases s with
  | nil => rfl
  | cons c cs => simp [List.isEmpty] at h

theorem str_isEmpty_false {s : Str} (h : s.isEmpty = false) : s ≠ [] := by
  intro he
  subst he
  simp [List.isEmpty] at h

/-- A stored document used in concrete instantiations. -/
def cxDoc : NewsDoc :=
  { id := 1, title := "aaaa bbbb".toList, summary := [], category := [],
    language := [], source := [], sourceUrl := [], image := [],
    breaking := false, likes := 0, views := 0, likedBy := [], viewedBy := [],
    timestamp := 0 }

/-- An incoming article with non-empty title and link but empty description,
whose normalized title coincides with that of cxDoc. -/
def cxItem : ApiItem :=
  { title := "aaaa bbbb".toList, link := "x".toList, description := [],
    image_url := [], categoryHead := none, source_id := [] }

/-- An incoming article like cxItem but with a description that cleans to a
non-empty summary. -/
def cxItem2 : ApiItem :=
  { title := "aaaa bbbb".toList, link := "x".toList,
    description := "Team wins the final game today.".toList,
    image_url := [], categoryHead := none, source_id := [] }

/-- Evaluation helper: similarity as an explicit ratio once the two distinct
counts are computed. -/
theorem similarity_eval (a b : List Str) (m n : Nat)
    (hm : ((jsSetList a).filter (fun w => w ∈ jsSetList b)).length = m)
    (hn : (jsSetList (jsSetList a ++ jsSetList b)).length = n) :
    similarity a b = (m : ℚ) / (n : ℚ) := by
  simp only [similarity]
  rw [hm, hn]

theorem cx_similarity :
    similarity (normalizeTitle cxItem.title) (normalizeTitle cxDoc.title) = 1 := by
  rw [similarity_eval _ _ 2 2 (by decide) (by decide)]
  norm_num

/-- C2 counterexample: in the part_004 variant, the incoming article cxItem
has a non-empty title and link and a stored article of the preceding six
hours with similarity 1 above 0.65, yet it is skipped (neither merged nor
added) because its cleaned summary is empty; so merging is not equivalent to
the existence of a similar recent article. -/
theorem fetchNews_p4_skip_counterexample :
    processItemP4 (recentWindow [cxDoc] 1) cxItem = FetchAction.skip ∧
    cxDoc ∈ recentWindow [cxDoc] 1 ∧
    13/20 < similarity (normalizeTitle cxItem.title) (normalizeTitle cxDoc.title) ∧
    ¬∃ dup upd, processItemP4 (recentWindow [cxDoc] 1) cxItem =
      FetchAction.merge dup upd := by
  refine ⟨by decide, by decide, by rw [cx_similarity]; norm_num, ?_⟩
  rintro ⟨dup, upd, h⟩
  rw [show processItemP4 (recentWindow [cxDoc] 1) cxItem = FetchAction.skip
    from by decide] at h
  exact FetchAction.noConfusion h

/-- C2 witness: the amended criterion applied to concrete inputs; in both
variants the article cxItem (respectively cxItem2, whose cleaned summary is
non-empty) is merged because cxDoc lies in the six-hour window with
similarity above 0.65. -/
theorem fetchNews_merge_criterion_witness :
    (∃ dup upd, processItemIdx (recentWindow [cxDoc] 1) cxItem =
      FetchAction.merge dup upd) ∧
    (∃ dup upd, processItemP4 (recentWindow [cxDoc] 1) cxItem2 =
      FetchAction.merge dup upd) := by
  constructor
  · exact (fetchNews_merge_criterion.1 [cxDoc] 1 cxItem (by decide) (by decide)).1.mpr
      ⟨cxDoc, by simp, by decide, by rw [cx_similarity]; norm_num⟩
  · refine (fetchNews_merge_criterion.2 [cxDoc] 1 cxItem2 (by decide) (by decide)
      (by decide)).1.mpr ⟨cxDoc, by simp, by decide, ?_⟩
    show 13/20 < similarity (normalizeTitle cxItem2.title) (normalizeTitle cxDoc.title)
    rw [show similarity (normalizeTitle cxItem2.title) (normalizeTitle cxDoc.title) =
      similarity (normalizeTitle cxItem.title) (normalizeTitle cxDoc.title) from rfl,
      cx_similarity]
    norm_num

/-- The merge case of applyAction, stated as an unfolding equation. -/
theorem applyAction_merge (db : List NewsDoc) (dup : NewsDoc) (upd : MergeUpdate)
    (now : Int) (newId : Nat) :
    applyAction db (FetchAction.merge dup upd) now newId =
      if upd = { summary := none, image := none } then db
      else db.map (fun d => if d.id = dup.id then applyMergeUpdate upd d else d) := rfl

/-- C3: when an incoming article is merged into an existing near-duplicate
document, at most the summary and image fields of any stored document change:
the summary is replaced only on the merge target and only when the new
cleaned summary is strictly longer than the snapshot summary, the image is
set only when the snapshot image is empty and the new article has one, every
other field (id, title, category, language, source, sourceUrl, breaking,
likes, views, likedBy, viewedBy, timestamp) is unchanged on every document,
and when neither condition holds no write occurs at all. -/
theorem fetchNews_merge_frame (db recent : List NewsDoc) (now : Int) (newId : Nat)
    (item : ApiItem) (dup : NewsDoc) (upd : MergeUpdate)
    (hact : processItemIdx recent item = FetchAction.merge dup upd) :
    (∀ (i : Nat) (d1 d2 : NewsDoc), db[i]? = some d1 →
      (applyAction db (FetchAction.merge dup upd) now newId)[i]? = some d2 →
      d2.id = d1.id ∧ d2.title = d1.title ∧ d2.category = d1.category ∧
      d2.language = d1.language ∧ d2.source = d1.source ∧
      d2.sourceUrl = d1.sourceUrl ∧ d2.breaking = d1.breaking ∧
      d2.likes = d1.likes ∧ d2.views = d1.views ∧ d2.likedBy = d1.likedBy ∧
      d2.viewedBy = d1.viewedBy ∧ d2.timestamp = d1.timestamp ∧
      (d2.summary = d1.summary ∨
        (d1.id = dup.id ∧
          dup.summary.length < (cleanAndTrimSummaryW item.description 100).length ∧
          d2.summary = cleanAndTrimSummaryW item.description 100)) ∧
      (d2.image = d1.image ∨
        (d1.id = dup.id ∧ dup.image = [] ∧ item.image_url ≠ [] ∧
          d2.image = item.image_url))) ∧
    ((cleanAndTrimSummaryW item.description 100).length ≤ dup.summary.length →
      (dup.image ≠ [] ∨ item.image_url = []) →
      applyAction db (FetchAction.merge dup upd) now newId = db) := by
  have hcond : (item.title.isEmpty || item.link.isEmpty) = false := by
    cases hb : (item.title.isEmpty || item.link.isEmpty) with
    | false => rfl
    | true =>
      unfold processItemIdx at hact
      rw [if_pos hb] at hact
      exact FetchAction.noConfusion hact
  obtain ⟨hte, hle⟩ := Bool.or_eq_false_iff.mp hcond
  have ht : item.title ≠ [] := str_isEmpty_false hte
  have hl : item.link ≠ [] := str_isEmpty_false hle
  obtain ⟨hscan, hupd⟩ := (processItemIdx_eq_merge ht hl dup upd).mp hact
  subst hupd
  constructor
  · intro i d1 d2 h1 h2
    rw [applyAction_merge] at h2
    by_cases hnn : computeMergeUpdate dup (cleanAndTrimSummaryW item.description 100)
        item.image_url = { summary := none, image := none }
    · rw [if_pos hnn, h1] at h2
      have hd : d1 = d2 := Option.some.inj h2
      subst hd
      exact ⟨rfl, rfl, rfl, rfl, rfl, rfl, rfl, rfl, rfl, rfl, rfl, rfl,
        Or.inl rfl, Or.inl rfl⟩
    · rw [if_neg hnn, List.getElem?_map, h1, Option.map_some'] at h2
      have hd : (if d1.id = dup.id then
          applyMergeUpdate (computeMergeUpdate dup
            (cleanAndTrimSummaryW item.description 100) item.image_url) d1
          else d1) = d2 := Option.some.inj h2
      by_cases hid : d1.id = dup.id
      · rw [if_pos hid] at hd
        subst hd
        unfold applyMergeUpdate computeMergeUpdate
        refine ⟨rfl, rfl, rfl, rfl, rfl, rfl, rfl, rfl, rfl, rfl, rfl, rfl, ?_, ?_⟩
        · by_cases hS : (cleanAndTrimSummaryW item.description 100).length >
              dup.summary.length
          · right
            exact ⟨hid, hS, by simp [hS]⟩
          · left
            simp [hS]
        · by_cases hI : (dup.image.isEmpty && !item.image_url.isEmpty) = true
          · right
            have hb1 : dup.image.isEmpty = true := ((Bool.and_eq_true _ _).mp hI).1
            have hb2 : (!item.image_url.isEmpty) = true := ((Bool.and_eq_true _ _).mp hI).2
            have hb3 : item.image_url.isEmpty = false := by
              cases hb : item.image_url.isEmpty with
              | false => rfl
              | true => rw [hb] at hb2; exact absurd hb2 (by simp)
            refine ⟨hid, str_isEmpty_true hb1, str_isEmpty_false hb3, ?_⟩
            simp [hI]
          · left
            simp [hI]
      · rw [if_neg hid] at hd
        subst hd
        exact ⟨rfl, rfl, rfl, rfl, rfl, rfl, rfl, rfl, rfl, rfl, rfl, rfl,
          Or.inl rfl, Or.inl rfl⟩
  · intro hSle him
    rw [applyAction_merge]
    have e1 : (if (cleanAndTrimSummaryW item.description 100).length >
        dup.summary.length then some (cleanAndTrimSummaryW item.description 100)
        else none) = none := if_neg (by omega)
    have e2 : (if dup.image.isEmpty && !item.image_url.isEmpty then
        some item.image_url else none) = none := by
      rcases him with h | h
      · have h2 : dup.image.isEmpty = false := by
          cases hb : dup.image with
          | nil => exact absurd hb h
          | cons c cs => rfl
        rw [h2]
        simp
      · rw [h]
        simp
    rw [if_pos (by unfold computeMergeUpdate; rw [e1, e2])]

theorem cx_scanBest :
    (scanBest (normalizeTitle cxItem.title) [cxDoc]).1 = some cxDoc := by
  unfold scanBest scanStep
  simp only [List.foldl_cons, List.foldl_nil, cx_similarity]
  norm_num

theorem cx_processItemIdx :
    processItemIdx [cxDoc] cxItem =
      FetchAction.merge cxDoc { summary := none, image := none } :=
  (processItemIdx_eq_merge (show cxItem.title ≠ [] by decide)
    (show cxItem.link ≠ [] by decide) cxDoc
    { summary := none, image := none }).mpr ⟨cx_scanBest, by decide⟩

/-- C3 witness: the frame theorem applied at a concrete merge in which
neither the summary condition nor the image condition holds, so the
collection is unchanged. -/
theorem fetchNews_merge_frame_witness :
    applyAction [cxDoc]
      (FetchAction.merge cxDoc { summary := none, image := none }) 1 5 = [cxDoc] :=
  (fetchNews_merge_frame [cxDoc] [cxDoc] 1 5 cxItem cxDoc
    { summary := none, image := none } cx_processItemIdx).2 (by decide) (Or.inr rfl)
/- ================= descending sort (orderBy / Array.sort) ================= -/

/-- Insert into a list kept in non-increasing key order. -/
def insertDescBy {α β : Type} [LinearOrder β] (key : α → β) (a : α) :
    List α → List α
  | [] => [a]
  | b :: t => if key b ≤ key a then a :: b :: t else b :: insertDescBy key a t

/-- Sort in non-increasing key order: model of Firestore
orderBy(field, "desc") and of Array.prototype.sort with the comparator
(x, y) => key(y) - key(x). -/
def sortDescBy {α β : Type} [LinearOrder β] (key : α → β) (l : List α) : List α :=
  l.foldr (insertDescBy key) []

theorem mem_insertDescBy {α β : Type} [LinearOrder β] {key : α → β} {x a : α} :
    ∀ {l : List α}, x ∈ insertDescBy key a l ↔ x = a ∨ x ∈ l := by
  intro l
  induction l with
  | nil => simp [insertDescBy]
  | cons b t ih =>
    by_cases hb : key b ≤ key a
    · simp [insertDescBy, hb]
    · simp only [insertDescBy, if_neg hb, List.mem_cons, ih]
      tauto

theorem pairwise_insertDescBy {α β : Type} [LinearOrder β] {key : α → β} (a : α) :
    ∀ {l : List α}, List.Pairwise (fun x y => key y ≤ key x) l →
      List.Pairwise (fun x y => key y ≤ key x) (insertDescBy key a l) := by
  intro l
  induction l with
  | nil => intro _; simp [insertDescBy]
  | cons b t ih =>
    intro h
    have h2 := List.pairwise_cons.mp h
    by_cases hb : key b ≤ key a
    · simp only [insertDescBy, if_pos hb, List.pairwise_cons]
      constructor
      · intro y hy
        rcases List.mem_cons.mp hy with rfl | hyt
        · exact hb
        · exact le_trans (h2.1 y hyt) hb
      · exact ⟨h2.1, h2.2⟩
    · simp only [insertDescBy, if_neg hb, List.pairwise_cons]
      constructor
      · intro y hy
        rcases mem_insertDescBy.mp hy with rfl | hyt
        · exact (not_le.mp hb).le
        · exact h2.1 y hyt
      · exact ih h2.2

theorem pairwise_sortDescBy {α β : Type} [LinearOrder β] (key : α → β)
    (l : List α) :
    List.Pairwise (fun x y => key y ≤ key x) (sortDescBy key l) := by
  induction l with
  | nil => simp [sortDescBy]
  | cons a t ih =>
    simp only [sortDescBy, List.foldr_cons]
    exact pairwise_insertDescBy a (by simpa [sortDescBy] using ih)

theorem mem_sortDescBy {α β : Type} [LinearOrder β] {key : α → β} {x : α} :
    ∀ {l : List α}, x ∈ sortDescBy key l ↔ x ∈ l := by
  intro l
  induction l with
  | nil => simp [sortDescBy]
  | cons a t ih =>
    simp only [sortDescBy, List.foldr_cons, mem_insertDescBy, List.mem_cons]
    have ih2 : x ∈ t.foldr (insertDescBy key) [] ↔ x ∈ t := ih
    rw [ih2]

/- ================= GET /news (C7) ================= -/

/-- Model of parseInt on the digit part: the value of the leading decimal
digits, none when there is no digit. -/
def parseDigits (s : Str) : Option Nat :=
  if (s.takeWhile Char.isDigit).isEmpty then none
  else some ((s.takeWhile Char.isDigit).foldl (fun a c => a * 10 + (c.toNat - 48)) 0)

/-- Model of JavaScript parseInt on a string: skip whitespace, optional sign,
leading decimal digits; none models NaN. -/
def jsParseIntStr (s : Str) : Option Int :=
  match s.dropWhile isSpaceCharJS with
  | '-' :: r => (parseDigits r).map (fun n => -(n : Int))
  | '+' :: r => (parseDigits r).map (fun n => (n : Int))
  | r => (parseDigits r).map (fun n => (n : Int))

/-- parseInt applied to an optional query parameter: an absent parameter is
undefined and parses to NaN. -/
def jsParseIntOpt (s : Option Str) : Option Int :=
  match s with
  | none => none
  | some cs => jsParseIntStr cs

/-- The limit used by the /news route (src/index.js line 227):
parseInt(req.query.limit) || 10, so NaN and 0 both fall back to 10. -/
def effectiveLimit (limitParam : Option Str) : Int :=
  match jsParseIntOpt limitParam with
  | some n => if n = 0 then 10 else n
  | none => 10

/-- Model of Timestamp.toDate().toISOString(): an injective rendering of the
epoch-millisecond instant.  The exact ISO-8601 digit layout is irrelevant to
the claims, which only compare the cursor against the rendering of a stored
timestamp. -/
def toISOString (ms : Int) : Str := "ISO:".toList ++ (toString ms).toList

/-- The response of the /news route. -/
structure NewsResponse where
  articles : List NewsDoc
  lastTimestamp : Option Str
deriving DecidableEq

/-- The Firestore query built by the /news route of src/index.js
lines 232-246: filter by language, optionally by category (JavaScript
treats an empty category as falsy and "All" as no filter), order by
timestamp descending, start strictly after the cursor instant, and take at
most `lim` documents. -/
def getNewsQuery (db : List NewsDoc) (language : Str) (category : Option Str)
    (startAfterTs : Option Int) (lim : Nat) : List NewsDoc :=
  let q1 := db.filter (fun d : NewsDoc => d.language = language)
  let q2 := match category with
    | some c =>
      if c ≠ [] ∧ c ≠ "All".toList then q1.filter (fun d : NewsDoc => d.category = c)
      else q1
    | none => q1
  let q3 := sortDescBy (fun d : NewsDoc => d.timestamp) q2
  let q4 := match startAfterTs with
    | some ts => q3.filter (fun d : NewsDoc => d.timestamp < ts)
    | none => q3
  q4.take lim

/-- Translation of the GET /news handler from src/index.js lines 225-267.
The limit follows parseInt(limit) || 10; the cursor parameter is modelled by
the instant obtained from new Date(lastTimestamp).  A negative parsed limit
is passed to Firestore Query.limit, which rejects it, so the catch block
answers with a 500 error, modelled by `none`; otherwise the response holds
the queried articles and the rendered timestamp of the last one (null when
no article is returned). -/
def getNews (db : List NewsDoc) (limitParam category : Option Str)
    (startAfterTs : Option Int) (language : Str) : Option NewsResponse :=
  if effectiveLimit limitParam < 0 then none
  else
    some { articles := getNewsQuery db language category startAfterTs
             (effectiveLimit limitParam).toNat,
           lastTimestamp :=
             match (getNewsQuery db language category startAfterTs
                 (effectiveLimit limitParam).toNat).getLast? with
             | some a => some (toISOString a.timestamp)
             | none => none }

theorem getNewsQuery_length_le (db : List NewsDoc) (language : Str)
    (category : Option Str) (startAfterTs : Option Int) (lim : Nat) :
    (getNewsQuery db language category startAfterTs lim).length ≤ lim := by
  simp only [getNewsQuery]
  exact List.length_take_le _ _

theorem getNewsQuery_sorted (db : List NewsDoc) (language : Str)
    (category : Option Str) (startAfterTs : Option Int) (lim : Nat) :
    List.Pairwise (fun a b : NewsDoc => b.timestamp ≤ a.timestamp)
      (getNewsQuery db language category startAfterTs lim) := by
  simp only [getNewsQuery]
  refine List.Pairwise.sublist (List.take_sublist _ _) ?_
  cases startAfterTs with
  | none => exact pairwise_sortDescBy _ _
  | some ts =>
    exact List.Pairwise.sublist (List.filter_sublist _) (pairwise_sortDescBy _ _)

/-- A stored document in language "en", used in concrete instantiations. -/
def cxDocEn : NewsDoc :=
  { id := 2, title := "tttt".toList, summary := [], category := [],
    language := "en".toList, source := [], sourceUrl := [], image := [],
    breaking := false, likes := 0, views := 0, likedBy := [], viewedBy := [],
    timestamp := 5 }

/-- C7 counterexample: with the limit parameter "0", which is parseable as
the integer 0, the response contains one article rather than at most zero:
parseInt(limit) || 10 falls back to 10 on a parsed value of 0. -/
theorem getNews_limit_zero_counterexample :
    jsParseIntOpt (some ("0".toList)) = some 0 ∧
    (getNews [cxDocEn] (some ("0".toList)) none none ("en".toList)).map
      (fun r => r.articles.length) = some 1 ∧
    ¬((1 : Int) ≤ 0) := by decide

/-- C7 amended: whenever the effective limit is non-negative (it is 10 when
the limit parameter is absent, not parseable, or parses to 0, and the parsed
value otherwise), the GET /news response holds at most that many articles in
non-increasing timestamp order, and its lastTimestamp cursor is the rendered
timestamp of the last returned article, or null when no article is
returned. -/
theorem getNews_spec (db : List NewsDoc) (limitParam category : Option Str)
    (startAfterTs : Option Int) (language : Str)
    (h : 0 ≤ effectiveLimit limitParam) :
    ∃ resp, getNews db limitParam category startAfterTs language = some resp ∧
      resp.articles.length ≤ (effectiveLimit limitParam).toNat ∧
      List.Pairwise (fun a b => b.timestamp ≤ a.timestamp) resp.articles ∧
      (∀ a, resp.articles.getLast? = some a →
        resp.lastTimestamp = some (toISOString a.timestamp)) ∧
      (resp.articles = [] → resp.lastTimestamp = none) ∧
      (limitParam = none → effectiveLimit limitParam = 10) ∧
      (jsParseIntOpt limitParam = none → effectiveLimit limitParam = 10) ∧
      (jsParseIntOpt limitParam = some 0 → effectiveLimit limitParam = 10) ∧
      (∀ n : Int, jsParseIntOpt limitParam = some n → n ≠ 0 →
        effectiveLimit limitParam = n) := by
  rw [getNews, if_neg (by omega)]
  refine ⟨_, rfl, ?_, ?_, ?_, ?_, ?_, ?_, ?_, ?_⟩
  · exact getNewsQuery_length_le db language category startAfterTs _
  · exact getNewsQuery_sorted db language category startAfterTs _
  · intro a ha
    have ha2 : (getNewsQuery db language category startAfterTs
        (effectiveLimit limitParam).toNat).getLast? = some a := ha
    simp only [ha2]
  · intro ha
    have ha2 : getNewsQuery db language category startAfterTs
        (effectiveLimit limitParam).toNat = [] := ha
    simp only [ha2, List.getLast?_nil]
  · intro hnone
    rw [hnone]
    rfl
  · intro hnone
    rw [effectiveLimit, hnone]
  · intro hzero
    rw [effectiveLimit, hzero]
    rfl
  · intro n hn hne
    rw [effectiveLimit, hn]
    exact if_neg hne

/-- C7 witness: the amended specification applied to a concrete store and a
request without parameters, whose effective limit is the default 10. -/
theorem getNews_spec_witness :
    ∃ resp, getNews [cxDocEn] none none none ("en".toList) = some resp ∧
      resp.articles.length ≤ (effectiveLimit none).toNat ∧
      List.Pairwise (fun a b => b.timestamp ≤ a.timestamp) resp.articles ∧
      (∀ a, resp.articles.getLast? = some a →
        resp.lastTimestamp = some (toISOString a.timestamp)) ∧
      (resp.articles = [] → resp.lastTimestamp = none) ∧
      ((none : Option Str) = none → effectiveLimit none = 10) ∧
      (jsParseIntOpt none = none → effectiveLimit none = 10) ∧
      (jsParseIntOpt none = some 0 → effectiveLimit none = 10) ∧
      (∀ n : Int, jsParseIntOpt none = some n → n ≠ 0 →
        effectiveLimit none = n) :=
  getNews_spec [cxDocEn] none none none ("en".toList) (by decide)

/- ================= GET /news/trending (C8) ================= -/

/-- The article age in hours used by the trending score
(src/index.js lines 1050-1055). -/
def ageHours (now : Int) (d : NewsDoc) : ℚ := ((now - d.timestamp : Int) : ℚ) / 3600000

/-- Translation of the decay trending score of src/index.js lines 1057-1066:
(likes*4 + views*1.5) / (ageHours + 2)^1.5 plus a boost of 20 for a breaking
article younger than 3 hours.  The fractional power Math.pow(x, 1.5) has no
rational value, so it is abstracted as the function argument pow32; every
theorem below holds for an arbitrary pow32. -/
def trendingScore (pow32 : ℚ → ℚ) (now : Int) (d : NewsDoc) : ℚ :=
  ((d.likes : ℚ) * 4 + (d.views : ℚ) * (3/2)) / pow32 (ageHours now d + 2) +
  (if d.breaking = true ∧ ageHours now d < 3 then (20 : ℚ) else 0)

/-- Translation of the GET /news/trending handler of src/index.js
lines 1033-1076: take the 100 most recent documents, score them, sort by
score descending (Array.prototype.sort with comparator
(a, b) => b.trendingScore - a.trendingScore) and answer with the first 20.
The response items are modelled as document-score pairs. -/
def trendingHandler (pow32 : ℚ → ℚ) (db : List NewsDoc) (now : Int) :
    List (NewsDoc × ℚ) :=
  (sortDescBy (fun p : NewsDoc × ℚ => p.2)
    (((sortDescBy (fun d : NewsDoc => d.timestamp) db).take 100).map
      (fun d => (d, trendingScore pow32 now d)))).take 20

/-- C8: every successful GET /news/trending response contains at most 20
articles, they appear in non-increasing order of their computed
trendingScore, and each carried score is the decay formula
(likes*4 + views*1.5) / (ageHours + 2)^decay plus a boost of 20 when the
article is breaking and less than 3 hours old (the fractional decay power is
abstracted as pow32). -/
theorem trending_spec (pow32 : ℚ → ℚ) (db : List NewsDoc) (now : Int) :
    (trendingHandler pow32 db now).length ≤ 20 ∧
    List.Pairwise (fun a b : NewsDoc × ℚ => b.2 ≤ a.2)
      (trendingHandler pow32 db now) ∧
    ∀ p ∈ trendingHandler pow32 db now, p.2 = trendingScore pow32 now p.1 := by
  refine ⟨?_, ?_, ?_⟩
  · exact List.length_take_le _ _
  · exact List.Pairwise.sublist (List.take_sublist _ _) (pairwise_sortDescBy _ _)
  · intro p hp
    have hp2 : p ∈ sortDescBy (fun p : NewsDoc × ℚ => p.2)
        (((sortDescBy (fun d : NewsDoc => d.timestamp) db).take 100).map
          (fun d => (d, trendingScore pow32 now d))) :=
      List.mem_of_mem_take hp
    have hp3 := mem_sortDescBy.mp hp2
    obtain ⟨d, -, hd⟩ := List.mem_map.mp hp3
    rw [← hd]

/-- C8 witness: the trending specification applied to a concrete scoring
function and store. -/
theorem trending_spec_witness :
    (trendingHandler id [cxDocEn] 0).length ≤ 20 ∧
    List.Pairwise (fun a b : NewsDoc × ℚ => b.2 ≤ a.2)
      (trendingHandler id [cxDocEn] 0) ∧
    ∀ p ∈ trendingHandler id [cxDocEn] 0, p.2 = trendingScore id 0 p.1 :=
  trending_spec id [cxDocEn] 0

/- ================= POST /news/:id/like (C10) ================= -/

/-- Result of the like route. -/
inductive LikeResult where
  | ok
  | alreadyLiked
  | notFound
  | badRequest
deriving DecidableEq

/-- Model of FieldValue.arrayUnion with a single element: append it when not
yet present. -/
def arrayUnion (l : List Str) (x : Str) : List Str := if x ∈ l then l else l ++ [x]

/-- Translation of the POST /news/:id/like handler from src/index.js
lines 740-767: a missing or empty deviceId gives a 400, a missing document a
404, a device already in likedBy answers success false without writing, and
otherwise likes is incremented and the device added to likedBy. -/
def likeHandler (db : List NewsDoc) (id : Nat) (deviceId : Option Str) :
    List NewsDoc × LikeResult :=
  match deviceId with
  | none => (db, LikeResult.badRequest)
  | some dev =>
    if dev.isEmpty then (db, LikeResult.badRequest)
    else
      match db.find? (fun d => d.id = id) with
      | none => (db, LikeResult.notFound)
      | some doc =>
        if dev ∈ doc.likedBy then (db, LikeResult.alreadyLiked)
        else
          (db.map (fun d => if d.id = id then
            { d with likes := d.likes + 1, likedBy := arrayUnion d.likedBy dev }
            else d), LikeResult.ok)

/-- C10: liking is idempotent per device: when the stored document with the
requested id already contains the device in likedBy, the like request leaves
the whole collection (in particular the likes counter and the likedBy array)
unchanged; and a second like request by the same device right after a first
one changes nothing. -/
theorem like_idempotent :
    (∀ (db : List NewsDoc) (id : Nat) (dev : Str) (doc : NewsDoc),
      db.find? (fun d => d.id = id) = some doc → dev ∈ doc.likedBy →
      (likeHandler db id (some dev)).1 = db) ∧
    (∀ (db : List NewsDoc) (id : Nat) (dev : Str),
      (likeHandler (likeHandler db id (some dev)).1 id (some dev)).1 =
        (likeHandler db id (some dev)).1) := by
  constructor
  · intro db id dev doc hfind hmem
    simp only [likeHandler]
    by_cases hde : dev.isEmpty = true
    · rw [if_pos hde]
    · rw [if_neg hde]
      simp only [hfind]
      rw [if_pos hmem]
  · intro db id dev
    by_cases hde : dev.isEmpty = true
    · have h1 : likeHandler db id (some dev) = (db, LikeResult.badRequest) := by
        simp only [likeHandler]
        rw [if_pos hde]
      rw [h1]
      show (likeHandler db id (some dev)).1 = db
      rw [h1]
    · cases hf : db.find? (fun d => d.id = id) with
      | none =>
        have h1 : likeHandler db id (some dev) = (db, LikeResult.notFound) := by
          simp only [likeHandler]
          rw [if_neg hde]
          simp only [hf]
        rw [h1]
        show (likeHandler db id (some dev)).1 = db
        rw [h1]
      | some doc =>
        by_cases hmem : dev ∈ doc.likedBy
        · have h1 : likeHandler db id (some dev) = (db, LikeResult.alreadyLiked) := by
            simp only [likeHandler]
            rw [if_neg hde]
            simp only [hf]
            rw [if_pos hmem]
          rw [h1]
          show (likeHandler db id (some dev)).1 = db
          rw [h1]
        · have h1 : likeHandler db id (some dev) =
              (db.map (fun d => if d.id = id then
                { d with likes := d.likes + 1, likedBy := arrayUnion d.likedBy dev }
                else d), LikeResult.ok) := by
            simp only [likeHandler]
            rw [if_neg hde]
            simp only [hf]
            rw [if_neg hmem]
          rw [h1]
          show (likeHandler (db.map (fun d => if d.id = id then
              { d with likes := d.likes + 1, likedBy := arrayUnion d.likedBy dev }
              else d)) id (some dev)).1 =
            db.map (fun d => if d.id = id then
              { d with likes := d.likes + 1, likedBy := arrayUnion d.likedBy dev }
              else d)
          have hgid : ∀ d : NewsDoc, ((fun d : NewsDoc => if d.id = id then
              { d with likes := d.likes + 1, likedBy := arrayUnion d.likedBy dev }
              else d) d).id = d.id := by
            intro d
            by_cases hd : d.id = id
            · simp [hd]
            · simp [hd]
          have hfind2 : (db.map (fun d => if d.id = id then
              { d with likes := d.likes + 1, likedBy := arrayUnion d.likedBy dev }
              else d)).find? (fun d => d.id = id) =
              some (if doc.id = id then { doc with likes := doc.likes + 1, likedBy := arrayUnion doc.likedBy dev } else doc) := by
            rw [List.find?_map]
            have hpe : ((fun d : NewsDoc => decide (d.id = id)) ∘
                (fun d : NewsDoc => if d.id = id then
                  { d with likes := d.likes + 1, likedBy := arrayUnion d.likedBy dev }
                  else d)) = (fun d : NewsDoc => decide (d.id = id)) := by
              funext d
              simp only [Function.comp]
              rw [hgid d]
            rw [hpe, hf, Option.map_some']
          have hp := List.find?_some hf
          have hdocid : doc.id = id := by simpa using hp
          rw [if_pos hdocid] at hfind2
          simp only [likeHandler]
          rw [if_neg hde]
          simp only [hfind2]
          rw [if_pos (show dev ∈ ({ doc with likes := doc.likes + 1, likedBy := arrayUnion doc.likedBy dev } : NewsDoc).likedBy by simp [arrayUnion, hmem])]

/-- A stored document whose likedBy already contains the device "devx". -/
def cxDocLiked : NewsDoc :=
  { id := 7, title := [], summary := [], category := [], language := [],
    source := [], sourceUrl := [], image := [], breaking := false, likes := 1,
    views := 0, likedBy := ["devx".toList], viewedBy := [], timestamp := 0 }

/-- C10 witness: both parts of the idempotence theorem at a concrete store
and device. -/
theorem like_idempotent_witness :
    (likeHandler [cxDocLiked] 7 (some ("devx".toList))).1 = [cxDocLiked] ∧
    (likeHandler (likeHandler [cxDocLiked] 7 (some ("devx".toList))).1 7
        (some ("devx".toList))).1 =
      (likeHandler [cxDocLiked] 7 (some ("devx".toList))).1 :=
  ⟨like_idempotent.1 [cxDocLiked] 7 ("devx".toList) cxDocLiked (by decide) (by decide),
   like_idempotent.2 [cxDocLiked] 7 ("devx".toList)⟩

/- ================= fetchNews failure model (C9) ================= -/

/-- The externally visible operations performed by one run of the
similarity-variant fetchNews (src/index.js lines 920-1012): the HTTP request,
the recent-window snapshot query, and one optional write per article. -/
inductive FetchOp where
  | httpGet
  | queryRecent
  | updateDoc (id : Nat) (upd : MergeUpdate)
  | addDoc (d : NewsDoc)
deriving DecidableEq

/-- The write performed for one processed item, if any: a merge writes only
when the update object is non-empty, an add appends a document, a skip
writes nothing. -/
def opOfAction (act : FetchAction) (now : Int) (newId : Nat) : Option FetchOp :=
  match act with
  | .skip => none
  | .merge dup upd =>
    if upd = { summary := none, image := none } then none
    else some (FetchOp.updateDoc dup.id upd)
  | .add item summary => some (FetchOp.addDoc (docOfItem item summary now newId))

/-- The operation plan of one fetchNews run: the HTTP request, the snapshot
query, then the per-item writes decided against the snapshot window (writes
during the run do not change the decisions, because the window is read
once up front). -/
def planOps (items : List ApiItem) (db : List NewsDoc) (now : Int)
    (newIdBase : Nat) : List FetchOp :=
  FetchOp.httpGet :: FetchOp.queryRecent ::
    items.enum.filterMap (fun p =>
      opOfAction (processItemIdx (recentWindow db now) p.2) now (newIdBase + p.1))

/-- The effect of one operation on the store: reads leave it unchanged. -/
def applyOp (op : FetchOp) (db : List NewsDoc) : List NewsDoc :=
  match op with
  | .httpGet => db
  | .queryRecent => db
  | .updateDoc id upd =>
    db.map (fun d => if d.id = id then applyMergeUpdate upd d else d)
  | .addDoc d => db ++ [d]

/-- Apply a list of operations in order. -/
def applyOps (ops : List FetchOp) (db : List NewsDoc) : List NewsDoc :=
  ops.foldl (fun db op => applyOp op db) db

/-- Execute a plan with an optional failing operation index: an operation at
the failure index raises, which aborts the remaining operations (the loop
body has no try/catch of its own).  Returns the final store, the attempted
operations and whether an exception was raised. -/
def execOps : List FetchOp → List NewsDoc → Nat → Option Nat →
    List NewsDoc × List FetchOp × Bool
  | [], db, _, _ => (db, [], false)
  | op :: rest, db, idx, failAt =>
    if failAt = some idx then (db, [op], true)
    else
      let r := execOps rest (applyOp op db) (idx + 1) failAt
      (r.1, op :: r.2.1, r.2.2)

/-- The outcome of one fetchNews invocation. -/
structure RunOutcome where
  db : List NewsDoc
  attempted : List FetchOp
  errorLogged : Bool
  threw : Bool

/-- One run of fetchNews under the failure model: the whole body sits inside
try/catch (src/index.js lines 921-1011), so an exception anywhere is caught,
logged by the console.error call of the catch block, and the function
returns normally in every case. -/
def fetchNewsRun (items : List ApiItem) (db : List NewsDoc) (now : Int)
    (newIdBase : Nat) (failAt : Option Nat) : RunOutcome :=
  let r := execOps (planOps items db now newIdBase) db 0 failAt
  { db := r.1, attempted := r.2.1, errorLogged := r.2.2, threw := false }

theorem execOps_none : ∀ (ops : List FetchOp) (db : List NewsDoc) (idx : Nat),
    execOps ops db idx none = (applyOps ops db, ops, false) := by
  intro ops
  induction ops with
  | nil => intro db idx; rfl
  | cons op rest ih =>
    intro db idx
    simp only [execOps, reduceCtorEq, if_false, ih, applyOps, List.foldl_cons]

theorem execOps_some : ∀ (ops : List FetchOp) (db : List NewsDoc) (idx k : Nat),
    execOps ops db idx (some (idx + k)) =
      (applyOps (ops.take k) db, ops.take (k + 1), decide (k < ops.length)) := by
  intro ops
  induction ops with
  | nil =>
    intro db idx k
    simp [execOps, applyOps]
  | cons op rest ih =>
    intro db idx k
    cases k with
    | zero =>
      simp only [execOps, Nat.add_zero, if_pos rfl]
      simp [applyOps, List.take_succ_cons]
    | succ k =>
      have hne : (some (idx + (k + 1)) = some idx) = False := by
        simp only [Option.some.injEq]
        simp only [eq_iff_iff, iff_false]
        omega
      simp only [execOps, hne, if_false]
      have harith : idx + (k + 1) = (idx + 1) + k := by omega
      rw [harith, ih (applyOp op db) (idx + 1) k]
      simp only [List.take_succ_cons, applyOps, List.foldl_cons, List.length_cons]
      have hb : decide (k < rest.length) = decide (k + 1 < rest.length + 1) :=
        decide_eq_decide.mpr (by omega)
      rw [hb]

/-- C9: fetchNews never propagates an error to its caller: for an arbitrary
failure point among the HTTP request and the database reads and writes, the
run returns normally (threw is always false, by the enclosing try/catch), an
error is logged exactly when the failure point hits a planned operation, the
attempted operations form a prefix of the plan in which the failed operation
is attempted exactly once and nothing runs after it (no retry), and the
final store is the initial store with every write before the failure applied
and kept (no rollback). -/
theorem fetchNews_no_propagation (items : List ApiItem) (db : List NewsDoc)
    (now : Int) (newIdBase : Nat) (failAt : Option Nat) :
    (fetchNewsRun items db now newIdBase failAt).threw = false ∧
    ((fetchNewsRun items db now newIdBase failAt).errorLogged = true ↔
      ∃ n, failAt = some n ∧ n < (planOps items db now newIdBase).length) ∧
    (failAt = none →
      (fetchNewsRun items db now newIdBase failAt).attempted =
        planOps items db now newIdBase ∧
      (fetchNewsRun items db now newIdBase failAt).db =
        applyOps (planOps items db now newIdBase) db) ∧
    (∀ n, failAt = some n →
      (fetchNewsRun items db now newIdBase failAt).attempted =
        (planOps items db now newIdBase).take (n + 1) ∧
      (fetchNewsRun items db now newIdBase failAt).db =
        applyOps ((planOps items db now newIdBase).take n) db) := by
  cases failAt with
  | none =>
    refine ⟨rfl, ?_, ?_, ?_⟩
    · have h2 : (fetchNewsRun items db now newIdBase none).errorLogged = false := by
        show (execOps (planOps items db now newIdBase) db 0 none).2.2 = false
        rw [execOps_none]
      constructor
      · intro hcontra
        rw [h2] at hcontra
        exact Bool.noConfusion hcontra
      · rintro ⟨n, hn, -⟩
        exact Option.noConfusion hn
    · intro _
      constructor
      · show (execOps (planOps items db now newIdBase) db 0 none).2.1 =
          planOps items db now newIdBase
        rw [execOps_none]
      · show (execOps (planOps items db now newIdBase) db 0 none).1 =
          applyOps (planOps items db now newIdBase) db
        rw [execOps_none]
    · intro n hn
      exact Option.noConfusion hn
  | some n =>
    have hexec := execOps_some (planOps items db now newIdBase) db 0 n
    rw [Nat.zero_add] at hexec
    refine ⟨rfl, ?_, ?_, ?_⟩
    · have hel : (fetchNewsRun items db now newIdBase (some n)).errorLogged =
          decide (n < (planOps items db now newIdBase).length) := by
        show (execOps (planOps items db now newIdBase) db 0 (some n)).2.2 = _
        rw [hexec]
      rw [hel, decide_eq_true_eq]
      constructor
      · intro h
        exact ⟨n, rfl, h⟩
      · rintro ⟨m, hm, hlt⟩
        cases Option.some.inj hm
        exact hlt
    · intro h
      exact Option.noConfusion h
    · intro m hm
      cases Option.some.inj hm
      constructor
      · show (execOps (planOps items db now newIdBase) db 0 (some n)).2.1 =
          (planOps items db now newIdBase).take (n + 1)
        rw [hexec]
      · show (execOps (planOps items db now newIdBase) db 0 (some n)).1 =
          applyOps ((planOps items db now newIdBase).take n) db
        rw [hexec]

/-- C9 witness: the theorem applied to a concrete run whose first operation
(the HTTP request) fails: it is attempted once, nothing else runs, the store
is unchanged, and the function still returns normally. -/
theorem fetchNews_no_propagation_witness :
    (fetchNewsRun [] [] 0 0 (some 0)).threw = false ∧
    (fetchNewsRun [] [] 0 0 (some 0)).attempted = (planOps [] [] 0 0).take 1 ∧
    (fetchNewsRun [] [] 0 0 (some 0)).db = applyOps ((planOps [] [] 0 0).take 0) [] :=
  ⟨(fetchNews_no_propagation [] [] 0 0 (some 0)).1,
   ((fetchNews_no_propagation [] [] 0 0 (some 0)).2.2.2 0 rfl).1,
   ((fetchNews_no_propagation [] [] 0 0 (some 0)).2.2.2 0 rfl).2⟩
